import Mathlib

/-!
Verification development for the pdf-copy document parser
(parser/document_parser.py).

Python strings are modelled as lists of Unicode scalar values
(List Char).  Pure fragments of the source become Lean functions;
the stateful line walk of DocumentParser._split_into_chapters and the
element walk of DocumentParser._parse_mobi become explicit folds over
small state records.  Library calls (pdfminer, ebooklib, BeautifulSoup,
mobi, docx, textract, file reads) are abstracted as the values they
return to the parser; the fields of the Extracted record below hold
those values.  Library exceptions abort parse before any of the code
modelled here runs, so success-path claims are unaffected.
-/

/-- Whitespace characters of Python str.strip and of the regex class
backslash-s in unicode mode: code points with the Unicode White_Space
semantics used by Py_UNICODE_ISSPACE. -/
def pyIsSpace (c : Char) : Bool :=
  c = ' ' || c = '\t' || c = '\n' || c = '\x0b' || c = '\x0c' || c = '\r' ||
  c = '\x1c' || c = '\x1d' || c = '\x1e' || c = '\x1f' ||
  c = '\x85' || c = '\xa0' || c = '\u1680' ||
  ('\u2000' ≤ c && c ≤ '\u200A') ||
  c = '\u2028' || c = '\u2029' || c = '\u202F' || c = '\u205F' || c = '\u3000'

/-- Line boundary characters of Python str.splitlines. -/
def pyIsLineBreak (c : Char) : Bool :=
  c = '\n' || c = '\r' || c = '\x0b' || c = '\x0c' ||
  c = '\x1c' || c = '\x1d' || c = '\x1e' || c = '\x85' ||
  c = '\u2028' || c = '\u2029'

/-- Right-strip: removes the trailing run of whitespace characters,
the mirror half of Python str.strip, computed by reversing, dropping
the leading run, and reversing back. -/
def rstripSpace (l : List Char) : List Char :=
  (l.reverse.dropWhile pyIsSpace).reverse

/-- Python str.strip with no argument: drop leading and trailing
whitespace. -/
def pyStrip (l : List Char) : List Char :=
  rstripSpace (l.dropWhile pyIsSpace)

/-- Accumulator form of Python str.splitlines; acc holds the current
line reversed.  The CRLF pairing of the real splitlines is omitted:
the parser calls splitlines only on text already passed through
_clean_text, which removes every carriage return. -/
def pySplitlinesAux : List Char → List Char → List (List Char)
  | [], acc => if acc = [] then [] else [acc.reverse]
  | c :: cs, acc =>
    if pyIsLineBreak c then acc.reverse :: pySplitlinesAux cs []
    else pySplitlinesAux cs (c :: acc)

/-- Python str.splitlines (for carriage-return-free input). -/
def pySplitlines (l : List Char) : List (List Char) :=
  pySplitlinesAux l []

/-- Python "\n".join. -/
def pyJoinNL : List (List Char) → List Char
  | [] => []
  | [x] => x
  | x :: y :: rest => x ++ '\n' :: pyJoinNL (y :: rest)

/-- DocumentParser._clean_text: replace every ideographic space U+3000
by an ASCII space, then delete every carriage return. -/
def cleanText (l : List Char) : List Char :=
  (l.map fun c => if c = '\u3000' then ' ' else c).filter fun c => c ≠ '\r'

/-- The CJK numerals listed in the bracket class of heading_pattern. -/
def cjkNumerals : List Char := "一二三四五六七八九十百千万零两".data

/-- The regex class backslash-d (Unicode decimal digits).  ASCII and
fullwidth digits are enumerated; no claim exercises other Unicode
decimal digits. -/
def pyIsDigitRe (c : Char) : Bool :=
  c.isDigit || ('０' ≤ c && c ≤ '９')

/-- One character of the bracket class after the marker 第 in
heading_pattern. -/
def isHeadingNumChar (c : Char) : Bool :=
  pyIsDigitRe c || cjkNumerals.contains c

/-- The chapter/section/part/volume marker characters of
heading_pattern. -/
def cjkUnitChars : List Char := "章节回部卷".data

/-- First alternative of heading_pattern: the marker 第, then one or
more numeral-class characters, then a unit character.  The regex
quantifier is greedy with backtracking, but the numeral class and the
unit class are disjoint, so maximal munch is equivalent. -/
def matchCJKHeading (l : List Char) : Bool :=
  match l with
  | '第' :: rest =>
    !(rest.takeWhile isHeadingNumChar).isEmpty &&
    (match rest.dropWhile isHeadingNumChar with
     | c :: _ => cjkUnitChars.contains c
     | [] => false)
  | _ => false

/-- Consume a literal keyword case-insensitively (re.IGNORECASE; the
keywords are ASCII, so ASCII lowering models the regex fold). -/
def dropKeyword : List Char → List Char → Option (List Char)
  | [], rest => some rest
  | _ :: _, [] => none
  | k :: ks, c :: cs => if c.toLower = k then dropKeyword ks cs else none

/-- The regex tail after a keyword: one or more whitespace characters,
then at least one decimal digit (prefix semantics of re.match; the
whitespace and digit classes are disjoint, so maximal munch is
equivalent). -/
def spacesThenDigit (l : List Char) : Bool :=
  match l with
  | [] => false
  | c :: _ =>
    pyIsSpace c &&
    (match l.dropWhile pyIsSpace with
     | d :: _ => pyIsDigitRe d
     | [] => false)

/-- One keyword branch of the second alternative of heading_pattern. -/
def latinAlt (kw : String) (l : List Char) : Bool :=
  match dropKeyword kw.data l with
  | some rest => spacesThenDigit rest
  | none => false

/-- Second alternative of heading_pattern: chapter, section or part
followed by whitespace and a number. -/
def matchLatinHeading (l : List Char) : Bool :=
  latinAlt ("chapter") l || latinAlt ("section") l || latinAlt ("part") l

/-- DocumentParser.heading_pattern applied with re.match: an optional
run of leading whitespace, then either alternative, matching a prefix
of the line. -/
def headingMatch (l : List Char) : Bool :=
  let t := l.dropWhile pyIsSpace
  matchCJKHeading t || matchLatinHeading t

/-- The Chapter dataclass. -/
structure Chapter where
  title : List Char
  content : List Char
deriving DecidableEq, Repr

/-- DocumentParserError, carrying its message. -/
structure DPError where
  msg : List Char
deriving DecidableEq, Repr

/-- Python truthiness choice "t or d" for an optional string t. -/
def pyOrStr (o : Option (List Char)) (dflt : List Char) : List Char :=
  match o with
  | some t => if t = [] then dflt else t
  | none => dflt

/-- The synthesized title, in the source the f-string
default_title, a space, then len(chapters) + 1. -/
def placeholderTitle (d : List Char) (n : Nat) : List Char :=
  d ++ ' ' :: (Nat.repr (n + 1)).data

/-- Loop state of DocumentParser._split_into_chapters. -/
structure SegState where
  chapters : List Chapter
  currentTitle : Option (List Char)
  buffer : List (List Char)
deriving DecidableEq, Repr

/-- The chapter flushed mid-walk: title is current_title if truthy,
else the placeholder over all chapters appended so far; content is the
newline join of the buffer, stripped. -/
def flushChapter (d : List Char) (s : SegState) : Chapter :=
  ⟨pyOrStr s.currentTitle (placeholderTitle d s.chapters.length),
   pyStrip (pyJoinNL s.buffer)⟩

/-- One iteration of the line walk of _split_into_chapters. -/
def segStep (d : List Char) (s : SegState) (line : List Char) : SegState :=
  let stripped := pyStrip line
  if stripped = [] then { s with buffer := s.buffer ++ [[]] }
  else
    let s' :=
      if headingMatch stripped then
        let s2 :=
          if s.buffer = [] then s
          else { chapters := s.chapters ++ [flushChapter d s],
                 currentTitle := s.currentTitle, buffer := [] }
        { s2 with currentTitle := some stripped }
      else s
    { s' with buffer := s'.buffer ++ [stripped] }

/-- The flush after the walk of _split_into_chapters: when the final
buffer is non-empty, title is current_title if truthy, else a numbered
placeholder when chapters exist, else the plain default title. -/
def segFinish (d : List Char) (s : SegState) : List Chapter :=
  if s.buffer = [] then s.chapters
  else
    s.chapters ++
      [⟨pyOrStr s.currentTitle
          (if s.chapters = [] then d else placeholderTitle d s.chapters.length),
        pyStrip (pyJoinNL s.buffer)⟩]

/-- Initial loop state. -/
def initSegState : SegState := ⟨[], none, []⟩

/-- The heading-aware pass of _split_into_chapters over the lines of
the cleaned text. -/
def headingPass (d : List Char) (lines : List (List Char)) : List Chapter :=
  segFinish d (lines.foldl (segStep d) initSegState)

/-- Fixed-size slicing used by the fallback: successive slices of 1200
characters, the fuel argument bounding the recursion by the input
length.  This models the loop for index in range(0, text_length, 1200)
taking cleaned[index : index + 1200]. -/
def chunksAux : Nat → List Char → List (List Char)
  | 0, _ => []
  | _, [] => []
  | fuel + 1, c :: cs => (c :: cs).take 1200 :: chunksAux fuel ((c :: cs).drop 1200)

/-- All 1200-character chunks of a text. -/
def chunks1200 (l : List Char) : List (List Char) :=
  chunksAux l.length l

/-- The chunking fallback of _split_into_chapters for text longer than
1200 characters: each chunk becomes a chapter with a numbered
placeholder title and stripped content. -/
def chunkFallback (d : List Char) (cleaned : List Char) : List Chapter :=
  (chunks1200 cleaned).foldl
    (fun acc chunk => acc ++ [⟨placeholderTitle d acc.length, pyStrip chunk⟩]) []

/-- DocumentParser._split_into_chapters. -/
def splitIntoChapters (text : List Char) (d : List Char) : List Chapter :=
  let cleaned := cleanText text
  let cs := headingPass d (pySplitlines cleaned)
  if cs.length ≤ 1 then
    if cleaned.length ≤ 1200 then [⟨d, pyStrip cleaned⟩]
    else chunkFallback d cleaned
  else cs

/-- os.path.basename for POSIX paths: the part after the last slash. -/
def pyBasename (p : List Char) : List Char :=
  (p.reverse.takeWhile fun c => c ≠ '/').reverse

/-- os.path.splitext: split at the last dot of the final component,
provided some earlier character of that component is not a dot (a
leading run of dots never starts an extension). -/
def pySplitext (p : List Char) : List Char × List Char :=
  let baseRev := p.reverse.takeWhile fun c => c ≠ '/'
  match baseRev.dropWhile fun c => c ≠ '.' with
  | [] => (p, [])
  | _ :: stemRev =>
    if stemRev.any fun c => c ≠ '.' then
      let extLen := (baseRev.takeWhile fun c => c ≠ '.').length + 1
      (p.take (p.length - extLen), p.drop (p.length - extLen))
    else (p, [])

/-- Default chapter titles used by parse for each format. -/
def pdfDefaultTitle : List Char := "PDF 章节".data

/-- Default title for plain-text input. -/
def txtDefaultTitle : List Char := "文本章节".data

/-- Default title for doc and docx input. -/
def wordDefaultTitle : List Char := "Word 章节".data

/-- Default title for EPUB items. -/
def epubDefaultTitle : List Char := "EPUB 章节".data

/-- Default title for MOBI chapters. -/
def mobiDefaultTitle : List Char := "MOBI 章节".data

/-- DocumentParser._guess_title: basename minus extension, or the EPUB
default when that is the empty string. -/
def guessTitle (name : List Char) : List Char :=
  let t := (pySplitext (pyBasename name)).1
  if t = [] then epubDefaultTitle else t

/-- The item loop of DocumentParser._parse_epub.  An item is the pair
of its internal file name and the visible text extracted from its body
(BeautifulSoup get_text with newline separator); the loop cleans the
text and keeps the item only when the stripped text is non-empty. -/
def epubStep (acc : List Chapter) (item : List Char × List Char) : List Chapter :=
  let text := cleanText item.2
  if pyStrip text = [] then acc else acc ++ [⟨guessTitle item.1, text⟩]

/-- The fold of the item loop of _parse_epub. -/
def parseEpubItems (items : List (List Char × List Char)) : List Chapter :=
  items.foldl epubStep []

/-- DocumentParser._parse_epub after the container read: raises the
empty-result error when no item survives. -/
def parseEpub (items : List (List Char × List Char)) : Except DPError (List Chapter) :=
  let cs := parseEpubItems items
  if cs = [] then .error ⟨"未能从 EPUB 文件中提取章节".data⟩ else .ok cs

/-- Tags distinguished by the MOBI element walk; Other stands for any
markup that soup.find_all does not return but whose text still appears
in soup.get_text. -/
inductive HtmlTag where
  | h1 | h2 | h3 | h4 | h5 | h6 | p | div | other
deriving DecidableEq, Repr

/-- A parsed HTML element in document order, with the text that
element.get_text returns for it.  The model is flat: each element
carries one text node, so the get_text separator never occurs inside
one element. -/
structure HtmlElement where
  tag : HtmlTag
  text : List Char
deriving DecidableEq, Repr

/-- soup.find_all for the eight element names of _parse_mobi. -/
def soupFindAll (doc : List HtmlElement) : List HtmlElement :=
  doc.filter fun e => e.tag ≠ HtmlTag.other

/-- soup.get_text with newline separator over the whole document. -/
def soupGetTextNL (doc : List HtmlElement) : List Char :=
  pyJoinNL (doc.map fun e => e.text)

/-- Membership of a tag in the heading set of _parse_mobi. -/
def isHeadingTag (t : HtmlTag) : Bool :=
  t = HtmlTag.h1 || t = HtmlTag.h2 || t = HtmlTag.h3

/-- Loop state of the MOBI element walk. -/
structure MobiState where
  chapters : List Chapter
  currentTitle : List Char
  currentContent : List (List Char)
deriving DecidableEq, Repr

/-- The chapter flushed by the MOBI walk: the stripped current title
if truthy else the MOBI default, and the stripped newline join of the
accumulated content. -/
def mobiFlush (s : MobiState) : Chapter :=
  ⟨if pyStrip s.currentTitle = [] then mobiDefaultTitle else pyStrip s.currentTitle,
   pyStrip (pyJoinNL s.currentContent)⟩

/-- One iteration of the element walk of _parse_mobi. -/
def mobiStep (s : MobiState) (e : HtmlElement) : MobiState :=
  if isHeadingTag e.tag then
    let s2 :=
      if s.currentContent = [] then s
      else { chapters := s.chapters ++ [mobiFlush s],
             currentTitle := s.currentTitle, currentContent := [] }
    { s2 with currentTitle := cleanText e.text }
  else { s with currentContent := s.currentContent ++ [cleanText e.text] }

/-- DocumentParser._parse_mobi after the container read: walk the
elements, flush the trailing content, and fall back to the flat-text
segmenter over the plain-text extraction when the walk produced no
chapter. -/
def parseMobiDoc (doc : List HtmlElement) : List Chapter :=
  let f := (soupFindAll doc).foldl mobiStep ⟨[], mobiDefaultTitle, []⟩
  let cs := if f.currentContent = [] then f.chapters else f.chapters ++ [mobiFlush f]
  if cs = [] then splitIntoChapters (soupGetTextNL doc) mobiDefaultTitle else cs

/-- The values the format libraries hand back to parse, one field per
format; the dispatcher reads only the field of the selected format. -/
structure Extracted where
  txtContent : List Char
  pdfText : List Char
  docText : List Char
  docxParagraphs : List (List Char)
  epubItems : List (List Char × List Char)
  mobiDoc : List HtmlElement
deriving DecidableEq, Repr

/-- The lower-cased extension of a path as computed by parse
(os.path.splitext then str.lower; the recognized extensions are ASCII,
so ASCII lowering models str.lower on them). -/
def pathExt (path : List Char) : List Char :=
  (pySplitext path).2.map Char.toLower

/-- DocumentParser.parse: select the extractor by the lower-cased
extension, otherwise fail with the unsupported-type error naming the
extension. -/
def parse (path : List Char) (x : Extracted) : Except DPError (List Chapter) :=
  let ext := pathExt path
  if ext = ".pdf".data then .ok (splitIntoChapters x.pdfText pdfDefaultTitle)
  else if ext = ".txt".data then .ok (splitIntoChapters x.txtContent txtDefaultTitle)
  else if ext = ".epub".data then parseEpub x.epubItems
  else if ext = ".mobi".data then .ok (parseMobiDoc x.mobiDoc)
  else if ext = ".doc".data then .ok (splitIntoChapters x.docText wordDefaultTitle)
  else if ext = ".docx".data then
    .ok (splitIntoChapters (pyJoinNL x.docxParagraphs) wordDefaultTitle)
  else .error ⟨"暂不支持的文件类型: ".data ++ ext⟩

/-- An Extracted record whose every field is empty, the base for the
concrete inputs below. -/
def emptyExtract : Extracted := ⟨[], [], [], [], [], []⟩

/-- Concrete plain-text input refuting claim C1 as stated: 1199
letters, a space at the 1200-character chunk boundary, then one more
letter. -/
def exC1 : List Char := List.replicate 1199 'a' ++ [' ', 'b']

/-- The Extracted record holding exC1 as plain-text content. -/
def xC1 : Extracted := { emptyExtract with txtContent := exC1 }

/-- The chapters the parser returns for exC1: the boundary space is
lost to the per-chunk strip. -/
def csC1 : List Chapter :=
  [⟨"文本章节 1".data, List.replicate 1199 'a'⟩, ⟨"文本章节 2".data, ['b']⟩]

/-- Concrete whitespace-only plain-text input of 1201 characters,
refuting claim C10 as stated. -/
def exC10 : List Char := List.replicate 1201 ' '

/-- The Extracted record holding exC10 as plain-text content. -/
def xC10 : Extracted := { emptyExtract with txtContent := exC10 }

/-- Concrete parsed MOBI HTML refuting claim C5 as stated: three
paragraph elements, no h1, h2 or h3, two paragraphs starting with a
heading-shaped text. -/
def docC5 : List HtmlElement :=
  [⟨HtmlTag.p, "chapter 1 a".data⟩, ⟨HtmlTag.p, "x".data⟩,
   ⟨HtmlTag.p, "chapter 2 b".data⟩]

/-- Concrete parsed MOBI HTML exercising the amended claim C5: one
heading element and one element outside the walked tag set. -/
def docC5w : List HtmlElement :=
  [⟨HtmlTag.h1, "Title".data⟩, ⟨HtmlTag.other, "x".data⟩]

/-- Boolean equality of character lists, with the recursive call in
tail position so that concrete evaluation needs only constant stack. -/
def beqChars : List Char → List Char → Bool
  | [], [] => true
  | [], _ :: _ => false
  | _ :: _, [] => false
  | c :: cs, d :: ds => c == d && beqChars cs ds

/-- Boolean equality of chapters. -/
def beqChapter (a b : Chapter) : Bool :=
  beqChars a.title b.title && beqChars a.content b.content

/-- Boolean equality of chapter lists. -/
def beqChapters : List Chapter → List Chapter → Bool
  | [], [] => true
  | [], _ :: _ => false
  | _ :: _, [] => false
  | c :: cs, d :: ds => beqChapter c d && beqChapters cs ds

/-- Decidable equality for parse results, used to evaluate the model
at concrete inputs. -/
instance exceptDecEq {ε α : Type} [DecidableEq ε] [DecidableEq α] :
    DecidableEq (Except ε α) := fun x y =>
  match x, y with
  | .error a, .error b =>
    if h : a = b then .isTrue (by rw [h]) else .isFalse (by intro k; cases k; exact h rfl)
  | .ok a, .ok b =>
    if h : a = b then .isTrue (by rw [h]) else .isFalse (by intro k; cases k; exact h rfl)
  | .error _, .ok _ => .isFalse (by intro k; cases k)
  | .ok _, .error _ => .isFalse (by intro k; cases k)

theorem beqChars_eq : ∀ a b : List Char, beqChars a b = true → a = b := by
  intro a
  induction a with
  | nil =>
    intro b h
    cases b with
    | nil => rfl
    | cons d ds => simp [beqChars] at h
  | cons c cs ih =>
    intro b h
    cases b with
    | nil => simp [beqChars] at h
    | cons d ds =>
      simp only [beqChars, Bool.and_eq_true] at h
      obtain ⟨h1, h2⟩ := h
      rw [eq_of_beq h1, ih ds h2]

theorem beqChapter_eq (a b : Chapter) (h : beqChapter a b = true) : a = b := by
  cases a with
  | mk t1 c1 =>
    cases b with
    | mk t2 c2 =>
      simp only [beqChapter, Bool.and_eq_true] at h
      obtain ⟨h1, h2⟩ := h
      rw [beqChars_eq _ _ h1, beqChars_eq _ _ h2]

theorem beqChapters_eq : ∀ a b : List Chapter, beqChapters a b = true → a = b := by
  intro a
  induction a with
  | nil =>
    intro b h
    cases b with
    | nil => rfl
    | cons d ds => simp [beqChapters] at h
  | cons c cs ih =>
    intro b h
    cases b with
    | nil => simp [beqChapters] at h
    | cons d ds =>
      simp only [beqChapters, Bool.and_eq_true] at h
      obtain ⟨h1, h2⟩ := h
      rw [beqChapter_eq _ _ h1, ih ds h2]

theorem dw_head_false (p : Char → Bool) :
    ∀ (l : List Char) (x : Char) (r : List Char), l.dropWhile p = x :: r → p x = false := by
  intro l
  induction l with
  | nil => intro x r h; simp [List.dropWhile] at h
  | cons c cs ih =>
    intro x r h
    rw [List.dropWhile_cons] at h
    by_cases hc : p c = true
    · rw [if_pos hc] at h; exact ih x r h
    · rw [if_neg hc] at h
      cases h
      simpa using hc

theorem dw_eq_self_of_head (p : Char → Bool) (x : Char) (xs : List Char)
    (h : p x = false) : (x :: xs).dropWhile p = x :: xs := by
  rw [List.dropWhile_cons, if_neg (by simp [h])]

theorem dw_idem (p : Char → Bool) (l : List Char) :
    (l.dropWhile p).dropWhile p = l.dropWhile p := by
  cases h : l.dropWhile p with
  | nil => rfl
  | cons x r => exact dw_eq_self_of_head p x r (dw_head_false p l x r h)

theorem rstrip_idem (l : List Char) : rstripSpace (rstripSpace l) = rstripSpace l := by
  unfold rstripSpace
  rw [List.reverse_reverse, dw_idem]

theorem strip_head_false (l : List Char) (x : Char) (r : List Char)
    (h : pyStrip l = x :: r) : pyIsSpace x = false := by
  unfold pyStrip rstripSpace at h
  have hsuff : (l.dropWhile pyIsSpace).reverse.dropWhile pyIsSpace <:+
      (l.dropWhile pyIsSpace).reverse := List.dropWhile_suffix pyIsSpace
  have hpre : ((l.dropWhile pyIsSpace).reverse.dropWhile pyIsSpace).reverse <+:
      (l.dropWhile pyIsSpace).reverse.reverse := List.reverse_prefix.mpr hsuff
  rw [List.reverse_reverse, h] at hpre
  rcases hpre with ⟨t, ht⟩
  refine dw_head_false pyIsSpace l x (r ++ t) ?_
  rw [← ht]
  rfl

theorem strip_idem (l : List Char) : pyStrip (pyStrip l) = pyStrip l := by
  cases hy : pyStrip l with
  | nil => simp [pyStrip, List.dropWhile, rstripSpace]
  | cons x r =>
    have hx : pyIsSpace x = false := strip_head_false l x r hy
    have hdw : (x :: r).dropWhile pyIsSpace = x :: r := dw_eq_self_of_head pyIsSpace x r hx
    have hrs : rstripSpace (x :: r) = x :: r := by
      have h1 : rstripSpace (pyStrip l) = pyStrip l := by
        unfold pyStrip
        exact rstrip_idem _
      rw [hy] at h1; exact h1
    unfold pyStrip
    rw [hdw, hrs]

theorem rstrip_append (a b : List Char) (h : rstripSpace b ≠ []) :
    rstripSpace (a ++ b) = a ++ rstripSpace b := by
  unfold rstripSpace at h ⊢
  rw [List.reverse_append, List.dropWhile_append]
  have hb : (b.reverse.dropWhile pyIsSpace).isEmpty = false := by
    cases hx : b.reverse.dropWhile pyIsSpace with
    | nil => rw [hx] at h; simp at h
    | cons y ys => rfl
  simp only [hb, Bool.false_eq_true, if_false]
  rw [List.reverse_append, List.reverse_reverse]

theorem strip_of_all_space (l : List Char) (h : ∀ c ∈ l, pyIsSpace c = true) :
    pyStrip l = [] := by
  unfold pyStrip
  rw [List.dropWhile_eq_nil_iff.mpr h]
  rfl

theorem rstrip_ne_nil_of_mem (w : List Char) (c : Char)
    (hc : c ∈ w) (hs : pyIsSpace c = false) : rstripSpace w ≠ [] := by
  unfold rstripSpace
  intro h
  rw [List.reverse_eq_nil_iff] at h
  have hall := List.dropWhile_eq_nil_iff.mp h c (List.mem_reverse.mpr hc)
  rw [hs] at hall
  exact Bool.false_ne_true hall

theorem mem_dw_of_mem (p : Char → Bool) (l : List Char) (c : Char)
    (hc : c ∈ l) (hp : p c = false) : c ∈ l.dropWhile p := by
  induction l with
  | nil => cases hc
  | cons x xs ih =>
    rw [List.dropWhile_cons]
    by_cases hx : p x = true
    · rw [if_pos hx]
      rcases List.mem_cons.mp hc with rfl | hmem
      · rw [hp] at hx; cases hx
      · exact ih hmem
    · rw [if_neg hx]; exact hc

theorem strip_ne_nil_of_mem (l : List Char) (c : Char)
    (hc : c ∈ l) (hs : pyIsSpace c = false) : pyStrip l ≠ [] := by
  unfold pyStrip
  exact rstrip_ne_nil_of_mem _ c (mem_dw_of_mem pyIsSpace l c hc hs) hs

theorem mem_rstrip_sub (w : List Char) (c : Char) (hc : c ∈ rstripSpace w) : c ∈ w := by
  unfold rstripSpace at hc
  rw [List.mem_reverse] at hc
  exact List.mem_reverse.mp ((List.dropWhile_sublist pyIsSpace).mem hc)

theorem mem_strip_sub (l : List Char) (c : Char) (hc : c ∈ pyStrip l) : c ∈ l := by
  unfold pyStrip at hc
  have := mem_rstrip_sub _ c hc
  exact List.dropWhile_sublist (p := pyIsSpace) |>.mem this

theorem strip_placeholder_ne_nil (d : List Char) (n : Nat) (hd : pyStrip d ≠ []) :
    pyStrip (placeholderTitle d n) ≠ [] := by
  cases hy : pyStrip d with
  | nil => exact absurd hy hd
  | cons x r =>
    have hx : pyIsSpace x = false := strip_head_false d x r hy
    have hmem : x ∈ d := mem_strip_sub d x (by rw [hy]; exact List.mem_cons_self _ _)
    exact strip_ne_nil_of_mem _ x (by unfold placeholderTitle; exact List.mem_append_left _ hmem) hx

theorem mem_splitlinesAux (l : List Char) :
    ∀ (acc line : List Char), line ∈ pySplitlinesAux l acc →
      ∀ c ∈ line, c ∈ l ∨ c ∈ acc := by
  induction l with
  | nil =>
    intro acc line hline c hc
    simp only [pySplitlinesAux] at hline
    by_cases ha : acc = []
    · rw [if_pos ha] at hline; cases hline
    · rw [if_neg ha] at hline
      rcases List.mem_singleton.mp hline with rfl
      exact Or.inr (List.mem_reverse.mp hc)
  | cons c0 cs ih =>
    intro acc line hline c hc
    simp only [pySplitlinesAux] at hline
    by_cases hb : pyIsLineBreak c0 = true
    · rw [if_pos hb] at hline
      rcases List.mem_cons.mp hline with rfl | hmem
      · exact Or.inr (List.mem_reverse.mp hc)
      · rcases ih [] line hmem c hc with h | h
        · exact Or.inl (List.mem_cons_of_mem _ h)
        · cases h
    · rw [if_neg hb] at hline
      rcases ih (c0 :: acc) line hline c hc with h | h
      · exact Or.inl (List.mem_cons_of_mem _ h)
      · rcases List.mem_cons.mp h with rfl | h2
        · exact Or.inl (List.mem_cons_self _ _)
        · exact Or.inr h2

theorem mem_of_mem_splitlines (t line : List Char) (hline : line ∈ pySplitlines t)
    (c : Char) (hc : c ∈ line) : c ∈ t := by
  rcases mem_splitlinesAux t [] line hline c hc with h | h
  · exact h
  · cases h

theorem cleanText_all_space (t : List Char) (h : ∀ c ∈ t, pyIsSpace c = true) :
    ∀ c ∈ cleanText t, pyIsSpace c = true := by
  intro c hc
  unfold cleanText at hc
  have hmap := List.mem_of_mem_filter hc
  rcases List.mem_map.mp hmap with ⟨a, ha, rfl⟩
  by_cases h3 : a = '　'
  · rw [if_pos h3]; rfl
  · rw [if_neg h3]; exact h a ha

theorem segStep_blank (d : List Char) (s : SegState) (line : List Char)
    (h : pyStrip line = []) :
    segStep d s line = { s with buffer := s.buffer ++ [[]] } := by
  simp [segStep, h]

theorem segStep_body (d : List Char) (s : SegState) (line : List Char)
    (h1 : pyStrip line ≠ []) (h2 : headingMatch (pyStrip line) = false) :
    segStep d s line = { s with buffer := s.buffer ++ [pyStrip line] } := by
  simp [segStep, h1, h2]

theorem segStep_heading_nobuffer (d : List Char) (s : SegState) (line : List Char)
    (h1 : pyStrip line ≠ []) (h2 : headingMatch (pyStrip line) = true)
    (h3 : s.buffer = []) :
    segStep d s line =
      { chapters := s.chapters, currentTitle := some (pyStrip line),
        buffer := [pyStrip line] } := by
  simp [segStep, h1, h2, h3]

theorem segStep_heading_flush (d : List Char) (s : SegState) (line : List Char)
    (h1 : pyStrip line ≠ []) (h2 : headingMatch (pyStrip line) = true)
    (h3 : s.buffer ≠ []) :
    segStep d s line =
      { chapters := s.chapters ++ [flushChapter d s],
        currentTitle := some (pyStrip line), buffer := [pyStrip line] } := by
  simp [segStep, h1, h2, h3]

theorem foldl_no_heading (d : List Char) (lines : List (List Char)) :
    ∀ s : SegState, (∀ l ∈ lines, headingMatch (pyStrip l) = false) →
      (lines.foldl (segStep d) s).chapters = s.chapters ∧
      (lines.foldl (segStep d) s).currentTitle = s.currentTitle := by
  induction lines with
  | nil => intro s _; exact ⟨rfl, rfl⟩
  | cons l ls ih =>
    intro s h
    have hl := h l (List.mem_cons_self _ _)
    have hrest : ∀ l' ∈ ls, headingMatch (pyStrip l') = false :=
      fun l' hm => h l' (List.mem_cons_of_mem _ hm)
    simp only [List.foldl_cons]
    by_cases hb : pyStrip l = []
    · rw [segStep_blank d s l hb]
      exact ih _ hrest
    · rw [segStep_body d s l hb hl]
      exact ih _ hrest

theorem headingPass_no_heading_len (d : List Char) (lines : List (List Char))
    (h : ∀ l ∈ lines, headingMatch (pyStrip l) = false) :
    (headingPass d lines).length ≤ 1 := by
  unfold headingPass
  obtain ⟨hc, _⟩ := foldl_no_heading d lines initSegState h
  unfold segFinish
  by_cases hb : (lines.foldl (segStep d) initSegState).buffer = []
  · rw [if_pos hb, hc]; simp [initSegState]
  · rw [if_neg hb, hc]; simp [initSegState]

theorem split_no_heading (t d : List Char)
    (h : ∀ line ∈ pySplitlines (cleanText t), headingMatch (pyStrip line) = false) :
    splitIntoChapters t d =
      if (cleanText t).length ≤ 1200 then [⟨d, pyStrip (cleanText t)⟩]
      else chunkFallback d (cleanText t) := by
  simp only [splitIntoChapters]
  rw [if_pos (headingPass_no_heading_len d _ h)]

theorem chunksAux_flatten :
    ∀ (fuel : Nat) (l : List Char), l.length ≤ fuel → (chunksAux fuel l).flatten = l := by
  intro fuel
  induction fuel with
  | zero =>
    intro l h
    rw [List.eq_nil_of_length_eq_zero (Nat.le_zero.mp h)]
    rfl
  | succ f ih =>
    intro l h
    cases l with
    | nil => rfl
    | cons c cs =>
      simp only [chunksAux, List.flatten_cons]
      rw [ih ((c :: cs).drop 1200)
        (by simp only [List.length_drop, List.length_cons]
            simp only [List.length_cons] at h
            omega)]
      exact List.take_append_drop 1200 (c :: cs)

theorem chunksAux_nil (fuel : Nat) : chunksAux fuel [] = [] := by
  cases fuel <;> rfl

theorem chunksAux_length :
    ∀ (fuel : Nat) (l : List Char), l.length ≤ fuel → l ≠ [] →
      (chunksAux fuel l).length = (l.length + 1199) / 1200 := by
  intro fuel
  induction fuel with
  | zero =>
    intro l h hne
    exact absurd (List.eq_nil_of_length_eq_zero (Nat.le_zero.mp h)) hne
  | succ f ih =>
    intro l h hne
    cases l with
    | nil => exact absurd rfl hne
    | cons c cs =>
      simp only [chunksAux, List.length_cons]
      by_cases hd : (c :: cs).drop 1200 = []
      · rw [hd, chunksAux_nil]
        simp only [List.length_nil]
        have hlen : (c :: cs).length ≤ 1200 := by
          by_contra hcon
          push_neg at hcon
          refine List.ne_nil_of_length_pos ?_ hd
          rw [List.length_drop]
          omega
        simp only [List.length_cons] at hlen
        have hdiv : (cs.length + 1 + 1199) / 1200 = 1 :=
          Nat.div_eq_of_lt_le (by omega) (by omega)
        rw [hdiv]
      · have hlen : 1200 < (c :: cs).length := by
          by_contra hcon
          push_neg at hcon
          exact hd (List.drop_eq_nil_of_le hcon)
        have hdroplen : ((c :: cs).drop 1200).length ≤ f := by
          simp only [List.length_drop]
          simp only [List.length_cons] at h ⊢
          omega
        rw [ih _ hdroplen hd]
        simp only [List.length_drop, List.length_cons] at hlen ⊢
        have heq : cs.length + 1 + 1199 = ((cs.length + 1 - 1200) + 1199) + 1200 := by omega
        rw [heq, Nat.add_div_right _ (by norm_num)]

theorem chunkFallback_foldl_enum (d : List Char) :
    ∀ (chunks : List (List Char)) (acc : List Chapter),
      chunks.foldl (fun acc chunk => acc ++ [⟨placeholderTitle d acc.length, pyStrip chunk⟩]) acc
        = acc ++ (List.enumFrom acc.length chunks).map
            (fun ic => ⟨placeholderTitle d ic.1, pyStrip ic.2⟩) := by
  intro chunks
  induction chunks with
  | nil => intro acc; simp
  | cons ch chs ih =>
    intro acc
    simp only [List.foldl_cons, List.enumFrom_cons, List.map_cons]
    rw [ih]
    simp

theorem chunkFallback_eq (d cleaned : List Char) :
    chunkFallback d cleaned =
      (List.enum (chunks1200 cleaned)).map
        (fun ic => ⟨placeholderTitle d ic.1, pyStrip ic.2⟩) := by
  unfold chunkFallback
  rw [chunkFallback_foldl_enum]
  rfl

theorem chunks1200_ne_nil (l : List Char) (h : l ≠ []) : chunks1200 l ≠ [] := by
  unfold chunks1200
  cases l with
  | nil => exact absurd rfl h
  | cons c cs => simp [chunksAux]

theorem splitIntoChapters_length_pos (t d : List Char) :
    1 ≤ (splitIntoChapters t d).length := by
  simp only [splitIntoChapters]
  by_cases h1 : (headingPass d (pySplitlines (cleanText t))).length ≤ 1
  · rw [if_pos h1]
    by_cases h2 : (cleanText t).length ≤ 1200
    · rw [if_pos h2]; simp
    · rw [if_neg h2]
      rw [chunkFallback_eq]
      have hne : cleanText t ≠ [] := by
        intro hx
        rw [hx] at h2
        simp at h2
      have := chunks1200_ne_nil _ hne
      rcases List.exists_cons_of_ne_nil this with ⟨x, xs, hx⟩
      rw [hx]
      simp [List.enum]
  · rw [if_neg h1]; omega

theorem parse_pdf_eq (path : List Char) (x : Extracted) (h : pathExt path = ".pdf".data) :
    parse path x = .ok (splitIntoChapters x.pdfText pdfDefaultTitle) := by
  simp only [parse]
  rw [h, if_pos rfl]

theorem parse_txt_eq (path : List Char) (x : Extracted) (h : pathExt path = ".txt".data) :
    parse path x = .ok (splitIntoChapters x.txtContent txtDefaultTitle) := by
  simp only [parse]
  rw [h, if_neg (by decide), if_pos rfl]

theorem parse_epub_eq (path : List Char) (x : Extracted) (h : pathExt path = ".epub".data) :
    parse path x = parseEpub x.epubItems := by
  simp only [parse]
  rw [h, if_neg (by decide), if_neg (by decide), if_pos rfl]

theorem parse_mobi_eq (path : List Char) (x : Extracted) (h : pathExt path = ".mobi".data) :
    parse path x = .ok (parseMobiDoc x.mobiDoc) := by
  simp only [parse]
  rw [h, if_neg (by decide), if_neg (by decide), if_neg (by decide), if_pos rfl]

theorem parse_doc_eq (path : List Char) (x : Extracted) (h : pathExt path = ".doc".data) :
    parse path x = .ok (splitIntoChapters x.docText wordDefaultTitle) := by
  simp only [parse]
  rw [h, if_neg (by decide), if_neg (by decide), if_neg (by decide), if_neg (by decide),
     if_pos rfl]

theorem parse_docx_eq (path : List Char) (x : Extracted) (h : pathExt path = ".docx".data) :
    parse path x = .ok (splitIntoChapters (pyJoinNL x.docxParagraphs) wordDefaultTitle) := by
  simp only [parse]
  rw [h, if_neg (by decide), if_neg (by decide), if_neg (by decide), if_neg (by decide),
     if_neg (by decide), if_pos rfl]

theorem parse_unsupported (path : List Char) (x : Extracted)
    (h : pathExt path ∉
      [".pdf".data, ".txt".data, ".epub".data, ".mobi".data, ".doc".data, ".docx".data]) :
    parse path x = .error ⟨"暂不支持的文件类型: ".data ++ pathExt path⟩ := by
  simp only [List.mem_cons, List.mem_singleton, not_or] at h
  obtain ⟨h1, h2, h3, h4, h5, h6⟩ := h
  simp only [parse]
  rw [if_neg h1, if_neg h2, if_neg h3, if_neg h4, if_neg h5, if_neg (by simpa using h6)]

/-- Claim C2: for a plain-text input whose normalized text is at most
1200 characters long and has no line matched by the heading pattern,
parse returns exactly one chapter titled with the plain text default
title and whose content is the normalized input stripped of leading
and trailing whitespace. -/
theorem claim_C2 (path : List Char) (x : Extracted)
    (hext : pathExt path = ".txt".data)
    (hnohead : ∀ line ∈ pySplitlines (cleanText x.txtContent),
        headingMatch (pyStrip line) = false)
    (hlen : (cleanText x.txtContent).length ≤ 1200) :
    parse path x = .ok [⟨txtDefaultTitle, pyStrip (cleanText x.txtContent)⟩] := by
  rw [parse_txt_eq path x hext, split_no_heading _ _ hnohead, if_pos hlen]

/-- Witness for claim C2 at a concrete input. -/
theorem claim_C2_witness :
    pathExt ("a.txt".data) = ".txt".data ∧
    (∀ line ∈ pySplitlines (cleanText ("hello world".data)),
        headingMatch (pyStrip line) = false) ∧
    (cleanText ("hello world".data)).length ≤ 1200 ∧
    parse ("a.txt".data) ⟨"hello world".data, [], [], [], [], []⟩ =
      .ok [⟨txtDefaultTitle, pyStrip (cleanText ("hello world".data))⟩] :=
  ⟨by decide, by decide, by decide,
   claim_C2 ("a.txt".data) ⟨"hello world".data, [], [], [], [], []⟩
     (by decide) (by decide) (by decide)⟩

/-- Claim C1 (amended): for a plain-text input whose normalized text
is longer than 1200 characters and has no heading line, parse returns
one chapter per 1200-character chunk, the k-th titled with the default
title and index k, with content the k-th chunk stripped of leading and
trailing whitespace; the chapter count is the ceiling of length over
1200 and the unstripped chunks concatenate to the normalized text. -/
theorem claim_C1_amended (path : List Char) (x : Extracted)
    (hext : pathExt path = ".txt".data)
    (hnohead : ∀ line ∈ pySplitlines (cleanText x.txtContent),
        headingMatch (pyStrip line) = false)
    (hlen : 1200 < (cleanText x.txtContent).length) :
    parse path x = .ok ((List.enum (chunks1200 (cleanText x.txtContent))).map
        (fun ic => ⟨placeholderTitle txtDefaultTitle ic.1, pyStrip ic.2⟩)) ∧
    (chunks1200 (cleanText x.txtContent)).length
      = ((cleanText x.txtContent).length + 1199) / 1200 ∧
    (chunks1200 (cleanText x.txtContent)).flatten = cleanText x.txtContent := by
  refine ⟨?_, ?_, ?_⟩
  · rw [parse_txt_eq path x hext, split_no_heading _ _ hnohead,
       if_neg (by omega), chunkFallback_eq]
  · unfold chunks1200
    refine chunksAux_length _ _ le_rfl ?_
    intro hnil
    rw [hnil] at hlen
    simp at hlen
  · unfold chunks1200
    exact chunksAux_flatten _ _ le_rfl

set_option maxRecDepth 8000 in
/-- Witness for the amended claim C1 at a concrete input of 1201
characters. -/
theorem claim_C1_amended_witness :
    pathExt ("a.txt".data) = ".txt".data ∧
    1200 < (cleanText (List.replicate 1201 'a')).length ∧
    parse ("a.txt".data) { emptyExtract with txtContent := List.replicate 1201 'a' } =
      .ok ((List.enum (chunks1200 (cleanText (List.replicate 1201 'a')))).map
        (fun ic => ⟨placeholderTitle txtDefaultTitle ic.1, pyStrip ic.2⟩)) :=
  ⟨by decide, by decide,
   (claim_C1_amended ("a.txt".data) { emptyExtract with txtContent := List.replicate 1201 'a' }
     (by decide) (by decide) (by decide)).1⟩

set_option maxRecDepth 8000 in
/-- Claim C1 counterexample: the premises of the claim hold for the
input exC1, yet the concatenated chapter contents differ from the
normalized source text, because each chunk is stripped before being
stored. -/
theorem claim_C1_counterexample :
    pathExt ("a.txt".data) = ".txt".data ∧
    (∀ line ∈ pySplitlines (cleanText exC1), headingMatch (pyStrip line) = false) ∧
    1200 < (cleanText exC1).length ∧
    parse ("a.txt".data) xC1 = .ok csC1 ∧
    (csC1.map Chapter.content).flatten ≠ cleanText exC1 := by
  refine ⟨by decide, by decide, by decide, ?_, ?_⟩
  · rw [parse_txt_eq ("a.txt".data) xC1 (by decide)]
    exact congrArg Except.ok (beqChapters_eq _ _ (by decide))
  · intro heq
    have h1 : ((csC1.map Chapter.content).flatten).length = 1200 := by decide
    have h2 : (cleanText exC1).length = 1201 := by decide
    rw [heq, h2] at h1
    exact absurd h1 (by decide)

theorem rstrip_of_strip_fixed (b : List Char) (h : pyStrip b = b) : rstripSpace b = b := by
  calc rstripSpace b = rstripSpace (pyStrip b) := by rw [h]
  _ = rstripSpace (rstripSpace (b.dropWhile pyIsSpace)) := rfl
  _ = rstripSpace (b.dropWhile pyIsSpace) := rstrip_idem _
  _ = pyStrip b := rfl
  _ = b := h

theorem joinNL_ne_nil (b : List Char) (bs : List (List Char)) (h : b ≠ []) :
    pyJoinNL (b :: bs) ≠ [] := by
  cases bs with
  | nil => exact h
  | cons b2 bs2 =>
    show b ++ '\n' :: pyJoinNL (b2 :: bs2) ≠ []
    simp

theorem rstrip_joinNL :
    ∀ ls : List (List Char), (∀ b ∈ ls, rstripSpace b = b ∧ b ≠ []) →
      ls ≠ [] → rstripSpace (pyJoinNL ls) = pyJoinNL ls := by
  intro ls
  induction ls with
  | nil => intro _ h0; exact absurd rfl h0
  | cons a ls' ih =>
    intro h _
    cases ls' with
    | nil => exact (h a (List.mem_cons_self _ _)).1
    | cons b bs' =>
      have hrec := ih (fun b' hb => h b' (List.mem_cons_of_mem _ hb)) (by simp)
      have hJne : pyJoinNL (b :: bs') ≠ [] :=
        joinNL_ne_nil b bs' (h b (List.mem_cons_of_mem _ (List.mem_cons_self _ _))).2
      show rstripSpace (a ++ '\n' :: pyJoinNL (b :: bs')) = a ++ '\n' :: pyJoinNL (b :: bs')
      have hsplit : a ++ '\n' :: pyJoinNL (b :: bs') = (a ++ ['\n']) ++ pyJoinNL (b :: bs') := by
        simp
      rw [hsplit, rstrip_append _ _ (by rw [hrec]; exact hJne), hrec]

theorem strip_joinNL (ls : List (List Char))
    (h : ∀ b ∈ ls, pyStrip b = b ∧ b ≠ []) (hne : ls ≠ []) :
    pyStrip (pyJoinNL ls) = pyJoinNL ls := by
  cases ls with
  | nil => exact absurd rfl hne
  | cons a ls' =>
    obtain ⟨ha, hane⟩ := h a (List.mem_cons_self _ _)
    obtain ⟨x, r, hxr⟩ := List.exists_cons_of_ne_nil hane
    have hx : pyIsSpace x = false := strip_head_false a x r (ha.trans hxr)
    have hhead : ∃ w, pyJoinNL (a :: ls') = x :: w := by
      cases ls' with
      | nil => exact ⟨r, hxr⟩
      | cons b bs' =>
        refine ⟨r ++ '\n' :: pyJoinNL (b :: bs'), ?_⟩
        show a ++ '\n' :: pyJoinNL (b :: bs') = x :: (r ++ '\n' :: pyJoinNL (b :: bs'))
        rw [hxr]
        rfl
    obtain ⟨w, hw⟩ := hhead
    have hdw : (pyJoinNL (a :: ls')).dropWhile pyIsSpace = pyJoinNL (a :: ls') := by
      rw [hw]
      exact dw_eq_self_of_head pyIsSpace x w hx
    have hrs : rstripSpace (pyJoinNL (a :: ls')) = pyJoinNL (a :: ls') :=
      rstrip_joinNL (a :: ls')
        (fun b hb => ⟨rstrip_of_strip_fixed b (h b hb).1, (h b hb).2⟩) (by simp)
    unfold pyStrip
    rw [hdw, hrs]

theorem foldl_body_lines (d : List Char) :
    ∀ (bs : List (List Char)) (s : SegState),
      (∀ b ∈ bs, pyStrip b ≠ [] ∧ headingMatch (pyStrip b) = false) →
      bs.foldl (segStep d) s = { s with buffer := s.buffer ++ bs.map pyStrip } := by
  intro bs
  induction bs with
  | nil => intro s _; simp
  | cons b bs' ih =>
    intro s h
    obtain ⟨h1, h2⟩ := h b (List.mem_cons_self _ _)
    simp only [List.foldl_cons]
    rw [segStep_body d s b h1 h2, ih _ (fun b' hb => h b' (List.mem_cons_of_mem _ hb))]
    simp

theorem cjk_strip_ne_nil (l : List Char) (h : matchCJKHeading (pyStrip l) = true) :
    pyStrip l ≠ [] := by
  intro hx
  rw [hx] at h
  exact absurd h (by decide)

theorem headingMatch_of_cjk (l : List Char) (h : matchCJKHeading (pyStrip l) = true) :
    headingMatch (pyStrip l) = true := by
  obtain ⟨x, r, hxr⟩ := List.exists_cons_of_ne_nil (cjk_strip_ne_nil l h)
  have hx : pyIsSpace x = false := strip_head_false l x r hxr
  have hdw : (pyStrip l).dropWhile pyIsSpace = pyStrip l := by
    rw [hxr]
    exact dw_eq_self_of_head pyIsSpace x r hx
  simp only [headingMatch, hdw, h, Bool.true_or]

/-- Claim C3: for flat-text input whose normalized lines are a CJK
heading line, at least one non-blank non-heading body line, and a
second CJK heading line, the segmenter returns exactly two chapters,
titled with the two heading lines trimmed; the first chapter content
is the newline join of the trimmed first heading and body lines (so it
contains its own heading line as a prefix), and the second chapter
content is the trimmed second heading line itself. -/
theorem claim_C3 (t d h1 h2 : List Char) (bs : List (List Char))
    (hlines : pySplitlines (cleanText t) = h1 :: (bs ++ [h2]))
    (hbs : bs ≠ [])
    (hbody : ∀ b ∈ bs, pyStrip b ≠ [] ∧ headingMatch (pyStrip b) = false)
    (hm1 : matchCJKHeading (pyStrip h1) = true)
    (hm2 : matchCJKHeading (pyStrip h2) = true) :
    splitIntoChapters t d =
      [⟨pyStrip h1, pyJoinNL (pyStrip h1 :: bs.map pyStrip)⟩,
       ⟨pyStrip h2, pyStrip h2⟩] ∧
    (∃ r, pyJoinNL (pyStrip h1 :: bs.map pyStrip) = pyStrip h1 ++ r) := by
  have hne1 : pyStrip h1 ≠ [] := cjk_strip_ne_nil h1 hm1
  have hne2 : pyStrip h2 ≠ [] := cjk_strip_ne_nil h2 hm2
  have hb1 : headingMatch (pyStrip h1) = true := headingMatch_of_cjk h1 hm1
  have hb2 : headingMatch (pyStrip h2) = true := headingMatch_of_cjk h2 hm2
  have hs1 : segStep d initSegState h1 =
      { chapters := [], currentTitle := some (pyStrip h1), buffer := [pyStrip h1] } := by
    rw [segStep_heading_nobuffer d initSegState h1 hne1 hb1 rfl]
    rfl
  have hs2 : (bs.foldl (segStep d)
      { chapters := [], currentTitle := some (pyStrip h1), buffer := [pyStrip h1] }) =
      { chapters := [], currentTitle := some (pyStrip h1),
        buffer := pyStrip h1 :: bs.map pyStrip } := by
    rw [foldl_body_lines d bs _ hbody]
    rfl
  have hflush : flushChapter d
      { chapters := [], currentTitle := some (pyStrip h1),
        buffer := pyStrip h1 :: bs.map pyStrip } =
      ⟨pyStrip h1, pyStrip (pyJoinNL (pyStrip h1 :: bs.map pyStrip))⟩ := by
    simp [flushChapter, pyOrStr, hne1]
  have hcontent : pyStrip (pyJoinNL (pyStrip h1 :: bs.map pyStrip)) =
      pyJoinNL (pyStrip h1 :: bs.map pyStrip) := by
    refine strip_joinNL _ ?_ (by simp)
    intro b hb
    rcases List.mem_cons.mp hb with rfl | hmem
    · exact ⟨strip_idem h1, hne1⟩
    · rcases List.mem_map.mp hmem with ⟨b0, hb0, rfl⟩
      exact ⟨strip_idem b0, (hbody b0 hb0).1⟩
  have hs3 : segStep d
      { chapters := [], currentTitle := some (pyStrip h1),
        buffer := pyStrip h1 :: bs.map pyStrip } h2 =
      { chapters := [⟨pyStrip h1, pyJoinNL (pyStrip h1 :: bs.map pyStrip)⟩],
        currentTitle := some (pyStrip h2), buffer := [pyStrip h2] } := by
    rw [segStep_heading_flush d _ h2 hne2 hb2 (by simp), hflush, hcontent]
    simp
  have hfin : segFinish d
      { chapters := [⟨pyStrip h1, pyJoinNL (pyStrip h1 :: bs.map pyStrip)⟩],
        currentTitle := some (pyStrip h2), buffer := [pyStrip h2] } =
      [⟨pyStrip h1, pyJoinNL (pyStrip h1 :: bs.map pyStrip)⟩,
       ⟨pyStrip h2, pyStrip h2⟩] := by
    unfold segFinish pyOrStr
    rw [if_neg (by simp : ¬ ([pyStrip h2] : List (List Char)) = [])]
    simp only [if_neg hne2]
    have : pyStrip (pyJoinNL [pyStrip h2]) = pyStrip h2 := strip_idem h2
    rw [this]
    rfl
  have hpass : headingPass d (pySplitlines (cleanText t)) =
      [⟨pyStrip h1, pyJoinNL (pyStrip h1 :: bs.map pyStrip)⟩,
       ⟨pyStrip h2, pyStrip h2⟩] := by
    unfold headingPass
    rw [hlines]
    simp only [List.foldl_cons, List.foldl_append, List.foldl_nil]
    rw [hs1, hs2, hs3, hfin]
  constructor
  · simp only [splitIntoChapters]
    rw [hpass]
    rfl
  · obtain ⟨b, bs', rfl⟩ := List.exists_cons_of_ne_nil hbs
    exact ⟨'\n' :: pyJoinNL (pyStrip b :: bs'.map pyStrip), rfl⟩

/-- Witness for claim C3 at the concrete two-heading input from the
specification. -/
theorem claim_C3_witness :
    pySplitlines (cleanText ("第一章 开始\nbody\n第二章 结束".data)) =
      ("第一章 开始".data) :: (["body".data] ++ [("第二章 结束".data)]) ∧
    splitIntoChapters ("第一章 开始\nbody\n第二章 结束".data) txtDefaultTitle =
      [⟨pyStrip ("第一章 开始".data),
        pyJoinNL (pyStrip ("第一章 开始".data) :: ["body".data].map pyStrip)⟩,
       ⟨pyStrip ("第二章 结束".data), pyStrip ("第二章 结束".data)⟩] :=
  ⟨by decide,
   (claim_C3 ("第一章 开始\nbody\n第二章 结束".data) txtDefaultTitle
     ("第一章 开始".data) ("第二章 结束".data) ["body".data]
     (by decide) (by decide) (by decide) (by decide) (by decide)).1⟩

/-- Claim C4: in the heading-aware pass, a chapter flushed while no
current title is set gets the placeholder title made of the default
title and the count of all chapters already appended plus one, both at
a mid-walk heading flush and at the end-of-input flush with prior
chapters; at the end-of-input flush with zero prior chapters the title
is the plain default title with no numeric suffix. -/
theorem claim_C4 (d : List Char) :
    (∀ (s : SegState) (line : List Char),
        s.currentTitle = none → pyStrip line ≠ [] →
        headingMatch (pyStrip line) = true → s.buffer ≠ [] →
        (segStep d s line).chapters =
          s.chapters ++
            [⟨placeholderTitle d s.chapters.length, pyStrip (pyJoinNL s.buffer)⟩]) ∧
    (∀ s : SegState, s.currentTitle = none → s.buffer ≠ [] → s.chapters ≠ [] →
        segFinish d s =
          s.chapters ++
            [⟨placeholderTitle d s.chapters.length, pyStrip (pyJoinNL s.buffer)⟩]) ∧
    (∀ s : SegState, s.currentTitle = none → s.buffer ≠ [] → s.chapters = [] →
        segFinish d s = [⟨d, pyStrip (pyJoinNL s.buffer)⟩]) := by
  refine ⟨?_, ?_, ?_⟩
  · intro s line h1 h2 h3 h4
    rw [segStep_heading_flush d s line h2 h3 h4]
    unfold flushChapter pyOrStr
    rw [h1]
  · intro s h1 h2 h3
    unfold segFinish pyOrStr
    rw [if_neg h2, h1, if_neg h3]
  · intro s h1 h2 h3
    unfold segFinish pyOrStr
    rw [if_neg h2, h1, if_pos h3, h3]
    rfl

/-- Witness for claim C4: all three flush shapes at concrete states. -/
theorem claim_C4_witness :
    (segStep txtDefaultTitle ⟨[], none, [['x']]⟩ ("第一章 x".data)).chapters =
      [] ++ [⟨placeholderTitle txtDefaultTitle 0, pyStrip (pyJoinNL [['x']])⟩] ∧
    segFinish txtDefaultTitle ⟨[⟨['t'], ['c']⟩], none, [['x']]⟩ =
      [⟨['t'], ['c']⟩] ++ [⟨placeholderTitle txtDefaultTitle 1, pyStrip (pyJoinNL [['x']])⟩] ∧
    segFinish txtDefaultTitle ⟨[], none, [['x']]⟩ =
      [⟨txtDefaultTitle, pyStrip (pyJoinNL [['x']])⟩] :=
  ⟨(claim_C4 txtDefaultTitle).1 ⟨[], none, [['x']]⟩ ("第一章 x".data)
     rfl (by decide) (by decide) (by decide),
   (claim_C4 txtDefaultTitle).2.1 ⟨[⟨['t'], ['c']⟩], none, [['x']]⟩
     rfl (by decide) (by decide),
   (claim_C4 txtDefaultTitle).2.2 ⟨[], none, [['x']]⟩ rfl (by decide) rfl⟩

theorem mobiStep_heading_nocontent (s : MobiState) (e : HtmlElement)
    (h1 : isHeadingTag e.tag = true) (h2 : s.currentContent = []) :
    mobiStep s e = { s with currentTitle := cleanText e.text } := by
  simp [mobiStep, h1, h2]

theorem tag_heading_of_not_block (tg : HtmlTag)
    (h : tg ≠ HtmlTag.h4 ∧ tg ≠ HtmlTag.h5 ∧ tg ≠ HtmlTag.h6 ∧
         tg ≠ HtmlTag.p ∧ tg ≠ HtmlTag.div)
    (ho : tg ≠ HtmlTag.other) : isHeadingTag tg = true := by
  obtain ⟨h4, h5, h6, hp, hdiv⟩ := h
  cases tg <;> simp_all [isHeadingTag]

theorem foldl_mobi_headings :
    ∀ (els : List HtmlElement) (s : MobiState),
      (∀ e ∈ els, isHeadingTag e.tag = true) →
      s.currentContent = [] →
      (els.foldl mobiStep s).currentContent = [] ∧
      (els.foldl mobiStep s).chapters = s.chapters := by
  intro els
  induction els with
  | nil => intro s _ h2; exact ⟨h2, rfl⟩
  | cons e es ih =>
    intro s h h2
    simp only [List.foldl_cons]
    rw [mobiStep_heading_nocontent s e (h e (List.mem_cons_self _ _)) h2]
    exact ih _ (fun e' he => h e' (List.mem_cons_of_mem _ he)) h2

/-- Claim C5 (amended): a MOBI document whose parsed HTML contains no
h4, h5, h6, p or div element (the tags the walk treats as content)
falls back to flat-text segmentation, with a result equal to running
the Flat-Text Segmenter on the plain-text extraction of the same HTML;
the absence of h1, h2 and h3 alone does not trigger the fallback. -/
theorem claim_C5_amended (doc : List HtmlElement)
    (hblock : ∀ e ∈ doc, e.tag ≠ HtmlTag.h4 ∧ e.tag ≠ HtmlTag.h5 ∧
        e.tag ≠ HtmlTag.h6 ∧ e.tag ≠ HtmlTag.p ∧ e.tag ≠ HtmlTag.div) :
    parseMobiDoc doc = splitIntoChapters (soupGetTextNL doc) mobiDefaultTitle := by
  have hall : ∀ e ∈ soupFindAll doc, isHeadingTag e.tag = true := by
    intro e he
    have hmem : e ∈ doc := List.mem_of_mem_filter he
    have hne : e.tag ≠ HtmlTag.other := by
      have := List.of_mem_filter he
      simpa using this
    exact tag_heading_of_not_block e.tag (hblock e hmem) hne
  obtain ⟨hcc, hch⟩ :=
    foldl_mobi_headings (soupFindAll doc) ⟨[], mobiDefaultTitle, []⟩ hall rfl
  simp only [parseMobiDoc]
  rw [if_pos hcc, hch]
  rfl

/-- Witness for the amended claim C5 at a concrete document with one
heading and one unwalked element. -/
theorem claim_C5_amended_witness :
    (∀ e ∈ docC5w, e.tag ≠ HtmlTag.h4 ∧ e.tag ≠ HtmlTag.h5 ∧
        e.tag ≠ HtmlTag.h6 ∧ e.tag ≠ HtmlTag.p ∧ e.tag ≠ HtmlTag.div) ∧
    parseMobiDoc docC5w = splitIntoChapters (soupGetTextNL docC5w) mobiDefaultTitle :=
  ⟨by decide, claim_C5_amended docC5w (by decide)⟩

/-- Claim C5 counterexample: a document with three paragraphs and no
h1, h2 or h3 elements does not fall back; the element walk returns one
chapter while the Flat-Text Segmenter on the same plain text returns
two, so the results differ. -/
theorem claim_C5_counterexample :
    (∀ e ∈ docC5, e.tag ≠ HtmlTag.h1 ∧ e.tag ≠ HtmlTag.h2 ∧ e.tag ≠ HtmlTag.h3) ∧
    parseMobiDoc docC5 ≠ splitIntoChapters (soupGetTextNL docC5) mobiDefaultTitle :=
  ⟨by decide, by decide⟩

theorem parseMobiDoc_length_pos (doc : List HtmlElement) :
    1 ≤ (parseMobiDoc doc).length := by
  simp only [parseMobiDoc]
  by_cases h : (if ((soupFindAll doc).foldl mobiStep ⟨[], mobiDefaultTitle, []⟩).currentContent = []
      then ((soupFindAll doc).foldl mobiStep ⟨[], mobiDefaultTitle, []⟩).chapters
      else ((soupFindAll doc).foldl mobiStep ⟨[], mobiDefaultTitle, []⟩).chapters ++
        [mobiFlush ((soupFindAll doc).foldl mobiStep ⟨[], mobiDefaultTitle, []⟩)]) = []
  · rw [if_pos h]
    exact splitIntoChapters_length_pos _ _
  · rw [if_neg h]
    exact List.length_pos.mpr h

theorem parseEpub_ok_ne_nil (items : List (List Char × List Char)) (cs : List Chapter)
    (h : parseEpub items = .ok cs) : cs ≠ [] := by
  unfold parseEpub at h
  by_cases hc : parseEpubItems items = []
  · rw [if_pos hc] at h; cases h
  · rw [if_neg hc] at h
    injection h with h'
    rw [← h']
    exact hc

/-- Claim C6: whenever parse succeeds the chapter list has length at
least one; a chapter with empty content is permitted (an empty text
file yields one empty chapter), while an extraction whose items are
all empty surfaces as an error rather than an empty list. -/
theorem claim_C6 :
    (∀ (path : List Char) (x : Extracted) (cs : List Chapter),
        parse path x = .ok cs → 1 ≤ cs.length) ∧
    parse ("a.txt".data) emptyExtract = .ok [⟨txtDefaultTitle, []⟩] ∧
    parse ("b.epub".data) { emptyExtract with epubItems := [("item.html".data, "  ".data)] } =
      .error ⟨"未能从 EPUB 文件中提取章节".data⟩ := by
  refine ⟨?_, by decide, by decide⟩
  intro path x cs h
  simp only [parse] at h
  split_ifs at h
  · injection h with h'; rw [← h']; exact splitIntoChapters_length_pos _ _
  · injection h with h'; rw [← h']; exact splitIntoChapters_length_pos _ _
  · exact List.length_pos.mpr (parseEpub_ok_ne_nil _ _ h)
  · injection h with h'; rw [← h']; exact parseMobiDoc_length_pos _
  · injection h with h'; rw [← h']; exact splitIntoChapters_length_pos _ _
  · injection h with h'; rw [← h']; exact splitIntoChapters_length_pos _ _

/-- Witness for claim C6 at a successful concrete parse. -/
theorem claim_C6_witness :
    parse ("a.txt".data) emptyExtract = .ok [⟨txtDefaultTitle, []⟩] ∧
    1 ≤ ([⟨txtDefaultTitle, ([] : List Char)⟩] : List Chapter).length :=
  ⟨by decide, claim_C6.1 ("a.txt".data) emptyExtract _ (by decide)⟩

theorem pyOrStr_strip_ne (o : Option (List Char)) (dflt : List Char)
    (hd : pyStrip dflt ≠ [])
    (h2 : ∀ t0, o = some t0 → t0 ≠ [] ∧ pyStrip t0 = t0) :
    pyStrip (pyOrStr o dflt) ≠ [] := by
  cases o with
  | none => exact hd
  | some t0 =>
    obtain ⟨hne, hfix⟩ := h2 t0 rfl
    simp only [pyOrStr, if_neg hne]
    rw [hfix]
    exact hne

theorem flushChapter_title_strip (d : List Char) (s : SegState) (hd : pyStrip d ≠ [])
    (h2 : ∀ t0, s.currentTitle = some t0 → t0 ≠ [] ∧ pyStrip t0 = t0) :
    pyStrip (flushChapter d s).title ≠ [] := by
  show pyStrip (pyOrStr s.currentTitle (placeholderTitle d s.chapters.length)) ≠ []
  exact pyOrStr_strip_ne _ _ (strip_placeholder_ne_nil d _ hd) h2

theorem seg_fold_titles (d : List Char) (hd : pyStrip d ≠ []) :
    ∀ (lines : List (List Char)) (s : SegState),
      (∀ c ∈ s.chapters, pyStrip c.title ≠ []) →
      (∀ t0, s.currentTitle = some t0 → t0 ≠ [] ∧ pyStrip t0 = t0) →
      (∀ c ∈ (lines.foldl (segStep d) s).chapters, pyStrip c.title ≠ []) ∧
      (∀ t0, (lines.foldl (segStep d) s).currentTitle = some t0 →
        t0 ≠ [] ∧ pyStrip t0 = t0) := by
  intro lines
  induction lines with
  | nil => intro s h1 h2; exact ⟨h1, h2⟩
  | cons l ls ih =>
    intro s h1 h2
    simp only [List.foldl_cons]
    by_cases hb : pyStrip l = []
    · rw [segStep_blank d s l hb]
      exact ih _ h1 h2
    · by_cases hm : headingMatch (pyStrip l) = true
      · by_cases hbuf : s.buffer = []
        · rw [segStep_heading_nobuffer d s l hb hm hbuf]
          refine ih _ h1 ?_
          intro t0 ht0
          injection ht0 with ht0'
          rw [← ht0']
          exact ⟨hb, strip_idem l⟩
        · rw [segStep_heading_flush d s l hb hm hbuf]
          refine ih _ ?_ ?_
          · intro c hc
            rcases List.mem_append.mp hc with hcl | hcr
            · exact h1 c hcl
            · rw [List.mem_singleton.mp hcr]
              exact flushChapter_title_strip d s hd h2
          · intro t0 ht0
            injection ht0 with ht0'
            rw [← ht0']
            exact ⟨hb, strip_idem l⟩
      · rw [segStep_body d s l hb (by simpa using hm)]
        exact ih _ h1 h2

theorem headingPass_titles (d : List Char) (hd : pyStrip d ≠ [])
    (lines : List (List Char)) :
    ∀ c ∈ headingPass d lines, pyStrip c.title ≠ [] := by
  obtain ⟨h1, h2⟩ := seg_fold_titles d hd lines initSegState
    (by intro c hc; simp [initSegState] at hc) (by intro t0 ht0; simp [initSegState] at ht0)
  intro c hc
  unfold headingPass segFinish at hc
  by_cases hb : (lines.foldl (segStep d) initSegState).buffer = []
  · rw [if_pos hb] at hc; exact h1 c hc
  · rw [if_neg hb] at hc
    rcases List.mem_append.mp hc with hcl | hcr
    · exact h1 c hcl
    · rw [List.mem_singleton.mp hcr]
      show pyStrip (pyOrStr _ _) ≠ []
      refine pyOrStr_strip_ne _ _ ?_ h2
      by_cases hch : (lines.foldl (segStep d) initSegState).chapters = []
      · rw [if_pos hch]; exact hd
      · rw [if_neg hch]; exact strip_placeholder_ne_nil d _ hd

theorem splitIntoChapters_titles (t d : List Char) (hd : pyStrip d ≠ []) :
    ∀ c ∈ splitIntoChapters t d, pyStrip c.title ≠ [] := by
  intro c hc
  simp only [splitIntoChapters] at hc
  by_cases h1 : (headingPass d (pySplitlines (cleanText t))).length ≤ 1
  · rw [if_pos h1] at hc
    by_cases h2 : (cleanText t).length ≤ 1200
    · rw [if_pos h2] at hc
      rw [List.mem_singleton.mp hc]
      exact hd
    · rw [if_neg h2, chunkFallback_eq] at hc
      rcases List.mem_map.mp hc with ⟨ic, _, rfl⟩
      exact strip_placeholder_ne_nil d _ hd
  · rw [if_neg h1] at hc
    exact headingPass_titles d hd _ c hc

theorem mobiFlush_title_strip (s : MobiState) : pyStrip (mobiFlush s).title ≠ [] := by
  show pyStrip (if pyStrip s.currentTitle = [] then mobiDefaultTitle
    else pyStrip s.currentTitle) ≠ []
  by_cases h : pyStrip s.currentTitle = []
  · rw [if_pos h]; decide
  · rw [if_neg h, strip_idem]; exact h

theorem mobiStep_heading_flush (s : MobiState) (e : HtmlElement)
    (h1 : isHeadingTag e.tag = true) (h2 : s.currentContent ≠ []) :
    mobiStep s e =
      { chapters := s.chapters ++ [mobiFlush s], currentTitle := cleanText e.text,
        currentContent := [] } := by
  simp [mobiStep, h1, h2]

theorem mobiStep_block (s : MobiState) (e : HtmlElement)
    (h1 : isHeadingTag e.tag = false) :
    mobiStep s e = { s with currentContent := s.currentContent ++ [cleanText e.text] } := by
  simp [mobiStep, h1]

theorem mobi_fold_titles :
    ∀ (els : List HtmlElement) (s : MobiState),
      (∀ c ∈ s.chapters, pyStrip c.title ≠ []) →
      ∀ c ∈ (els.foldl mobiStep s).chapters, pyStrip c.title ≠ [] := by
  intro els
  induction els with
  | nil => intro s h; exact h
  | cons e es ih =>
    intro s h
    simp only [List.foldl_cons]
    by_cases h1 : isHeadingTag e.tag = true
    · by_cases h2 : s.currentContent = []
      · rw [mobiStep_heading_nocontent s e h1 h2]
        exact ih _ h
      · rw [mobiStep_heading_flush s e h1 h2]
        refine ih _ ?_
        intro c hc
        rcases List.mem_append.mp hc with hcl | hcr
        · exact h c hcl
        · rw [List.mem_singleton.mp hcr]
          exact mobiFlush_title_strip s
    · rw [mobiStep_block s e (by simpa using h1)]
      exact ih _ h

theorem parseMobiDoc_titles (doc : List HtmlElement) :
    ∀ c ∈ parseMobiDoc doc, pyStrip c.title ≠ [] := by
  intro c hc
  simp only [parseMobiDoc] at hc
  by_cases hcs : (if ((soupFindAll doc).foldl mobiStep ⟨[], mobiDefaultTitle, []⟩).currentContent = []
      then ((soupFindAll doc).foldl mobiStep ⟨[], mobiDefaultTitle, []⟩).chapters
      else ((soupFindAll doc).foldl mobiStep ⟨[], mobiDefaultTitle, []⟩).chapters ++
        [mobiFlush ((soupFindAll doc).foldl mobiStep ⟨[], mobiDefaultTitle, []⟩)]) = []
  · rw [if_pos hcs] at hc
    exact splitIntoChapters_titles _ _ (by decide) c hc
  · rw [if_neg hcs] at hc
    have hbase : ∀ c' ∈ ((soupFindAll doc).foldl mobiStep
        ⟨[], mobiDefaultTitle, []⟩).chapters, pyStrip c'.title ≠ [] :=
      mobi_fold_titles _ _ (by intro c' hc'; simp at hc')
    by_cases hcc : ((soupFindAll doc).foldl mobiStep ⟨[], mobiDefaultTitle, []⟩).currentContent = []
    · rw [if_pos hcc] at hc; exact hbase c hc
    · rw [if_neg hcc] at hc
      rcases List.mem_append.mp hc with h | h
      · exact hbase c h
      · rw [List.mem_singleton.mp h]
        exact mobiFlush_title_strip _

theorem epub_foldl_eq :
    ∀ (items : List (List Char × List Char)) (acc : List Chapter),
      items.foldl epubStep acc =
        acc ++ (items.filter fun i => !(pyStrip (cleanText i.2)).isEmpty).map
          (fun i => ⟨guessTitle i.1, cleanText i.2⟩) := by
  intro items
  induction items with
  | nil => intro acc; simp
  | cons i is ih =>
    intro acc
    simp only [List.foldl_cons, List.filter_cons]
    by_cases hp : pyStrip (cleanText i.2) = []
    · have hstep : epubStep acc i = acc := by simp [epubStep, hp]
      have hpred : (!(pyStrip (cleanText i.2)).isEmpty) = false := by
        rw [hp]; rfl
      rw [hstep, ih, hpred]
      simp
    · have hstep : epubStep acc i = acc ++ [⟨guessTitle i.1, cleanText i.2⟩] := by
        simp [epubStep, hp]
      have hpred : (!(pyStrip (cleanText i.2)).isEmpty) = true := by
        cases hx : pyStrip (cleanText i.2) with
        | nil => exact absurd hx hp
        | cons y ys => rfl
      rw [hstep, ih, hpred]
      simp

theorem parseEpubItems_eq (items : List (List Char × List Char)) :
    parseEpubItems items =
      (items.filter fun i => !(pyStrip (cleanText i.2)).isEmpty).map
        (fun i => ⟨guessTitle i.1, cleanText i.2⟩) := by
  unfold parseEpubItems
  rw [epub_foldl_eq]
  rfl

theorem guessTitle_ne_nil (name : List Char) : guessTitle name ≠ [] := by
  unfold guessTitle
  by_cases h : (pySplitext (pyBasename name)).1 = []
  · rw [if_pos h]; decide
  · rw [if_neg h]; exact h

theorem parseEpubItems_titles (items : List (List Char × List Char)) :
    ∀ c ∈ parseEpubItems items, c.title ≠ [] := by
  intro c hc
  rw [parseEpubItems_eq] at hc
  rcases List.mem_map.mp hc with ⟨i, _, rfl⟩
  exact guessTitle_ne_nil i.1

theorem parseEpub_ok_eq (items : List (List Char × List Char)) (cs : List Chapter)
    (h : parseEpub items = .ok cs) : cs = parseEpubItems items := by
  unfold parseEpub at h
  by_cases hc : parseEpubItems items = []
  · rw [if_pos hc] at h; cases h
  · rw [if_neg hc] at h
    injection h with h'
    exact h'.symm

theorem ne_nil_of_strip_ne_nil (l : List Char) (h : pyStrip l ≠ []) : l ≠ [] := by
  intro hl
  rw [hl] at h
  exact h rfl

/-- Claim C7 (amended): every returned chapter title is a non-empty
string, and for every format except EPUB it is also non-empty after
trimming whitespace; an EPUB item title, derived from the item file
name, falls back to the default only when it is exactly the empty
string, so a whitespace-only name root survives as a title that trims
to empty. -/
theorem claim_C7_amended :
    (∀ (path : List Char) (x : Extracted) (cs : List Chapter),
        parse path x = .ok cs → pathExt path ≠ ".epub".data →
        ∀ c ∈ cs, pyStrip c.title ≠ []) ∧
    (∀ (path : List Char) (x : Extracted) (cs : List Chapter),
        parse path x = .ok cs → ∀ c ∈ cs, c.title ≠ []) := by
  constructor
  · intro path x cs h hne
    simp only [parse] at h
    split_ifs at h
    · injection h with h'; rw [← h']; exact splitIntoChapters_titles _ _ (by decide)
    · injection h with h'; rw [← h']; exact splitIntoChapters_titles _ _ (by decide)
    · injection h with h'; rw [← h']; exact parseMobiDoc_titles _
    · injection h with h'; rw [← h']; exact splitIntoChapters_titles _ _ (by decide)
    · injection h with h'; rw [← h']; exact splitIntoChapters_titles _ _ (by decide)
  · intro path x cs h
    simp only [parse] at h
    split_ifs at h
    · injection h with h'; rw [← h']
      intro c hc
      exact ne_nil_of_strip_ne_nil _ (splitIntoChapters_titles _ _ (by decide) c hc)
    · injection h with h'; rw [← h']
      intro c hc
      exact ne_nil_of_strip_ne_nil _ (splitIntoChapters_titles _ _ (by decide) c hc)
    · rw [parseEpub_ok_eq _ _ h]
      exact parseEpubItems_titles _
    · injection h with h'; rw [← h']
      intro c hc
      exact ne_nil_of_strip_ne_nil _ (parseMobiDoc_titles _ c hc)
    · injection h with h'; rw [← h']
      intro c hc
      exact ne_nil_of_strip_ne_nil _ (splitIntoChapters_titles _ _ (by decide) c hc)
    · injection h with h'; rw [← h']
      intro c hc
      exact ne_nil_of_strip_ne_nil _ (splitIntoChapters_titles _ _ (by decide) c hc)

/-- Witness for the amended claim C7 at concrete successful parses. -/
theorem claim_C7_amended_witness :
    (∀ c ∈ ([⟨txtDefaultTitle, []⟩] : List Chapter), pyStrip c.title ≠ []) ∧
    (∀ c ∈ ([⟨[' '], "hello".data⟩] : List Chapter), c.title ≠ []) :=
  ⟨claim_C7_amended.1 ("a.txt".data) emptyExtract [⟨txtDefaultTitle, []⟩]
     (by decide) (by decide),
   claim_C7_amended.2 ("b.epub".data)
     { emptyExtract with epubItems := [(" .html".data, "hello".data)] }
     [⟨[' '], "hello".data⟩] (by decide)⟩

/-- Claim C7 counterexample: an EPUB item named with a whitespace-only
root yields a successfully parsed chapter whose title is a single
space, which is empty after trimming. -/
theorem claim_C7_counterexample :
    parse ("b.epub".data) { emptyExtract with epubItems := [(" .html".data, "hello".data)] } =
      .ok [⟨[' '], "hello".data⟩] ∧
    pyStrip [' '] = [] :=
  ⟨by decide, by decide⟩

/-- Claim C8: for an EPUB with at least one item whose cleaned text is
non-empty after trimming, parse returns exactly the chapters of the
non-empty items, in order, each titled from its file name with the
cleaned text as content; when every item trims to empty, parse fails
with the EPUB empty-result error rather than returning an empty
list. -/
theorem claim_C8 :
    (∀ (path : List Char) (x : Extracted),
        pathExt path = ".epub".data →
        (∃ i ∈ x.epubItems, pyStrip (cleanText i.2) ≠ []) →
        parse path x = .ok
          ((x.epubItems.filter fun i => !(pyStrip (cleanText i.2)).isEmpty).map
            (fun i => ⟨guessTitle i.1, cleanText i.2⟩))) ∧
    (∀ (path : List Char) (x : Extracted),
        pathExt path = ".epub".data →
        (∀ i ∈ x.epubItems, pyStrip (cleanText i.2) = []) →
        parse path x = .error ⟨"未能从 EPUB 文件中提取章节".data⟩) := by
  constructor
  · intro path x hext hex
    rw [parse_epub_eq path x hext]
    unfold parseEpub
    rw [parseEpubItems_eq]
    obtain ⟨i, hi, hne⟩ := hex
    have hpred : (!(pyStrip (cleanText i.2)).isEmpty) = true := by
      cases hx : pyStrip (cleanText i.2) with
      | nil => exact absurd hx hne
      | cons y ys => rfl
    have hmemf : i ∈ x.epubItems.filter fun i => !(pyStrip (cleanText i.2)).isEmpty :=
      List.mem_filter.mpr ⟨hi, hpred⟩
    have hmapne : (x.epubItems.filter fun i => !(pyStrip (cleanText i.2)).isEmpty).map
        (fun i => (⟨guessTitle i.1, cleanText i.2⟩ : Chapter)) ≠ [] := by
      intro hnil
      rw [List.map_eq_nil_iff] at hnil
      rw [hnil] at hmemf
      cases hmemf
    rw [if_neg hmapne]
  · intro path x hext hall
    rw [parse_epub_eq path x hext]
    unfold parseEpub
    rw [parseEpubItems_eq]
    have hfilter : (x.epubItems.filter fun i => !(pyStrip (cleanText i.2)).isEmpty) = [] := by
      rw [List.filter_eq_nil_iff]
      intro i hi
      rw [hall i hi]
      simp
    rw [hfilter]
    rfl

/-- Witness for claim C8: a two-item EPUB with one empty item keeps
only the non-empty one; an all-empty EPUB errors. -/
theorem claim_C8_witness :
    parse ("b.epub".data)
      { emptyExtract with epubItems := [("a.html".data, []), ("b.html".data, "x".data)] } =
      .ok ((([("a.html".data, ([] : List Char)), ("b.html".data, "x".data)]).filter
          (fun i => !(pyStrip (cleanText i.2)).isEmpty)).map
        (fun i => ⟨guessTitle i.1, cleanText i.2⟩)) ∧
    parse ("c.epub".data) { emptyExtract with epubItems := [("a.html".data, " ".data)] } =
      .error ⟨"未能从 EPUB 文件中提取章节".data⟩ :=
  ⟨claim_C8.1 ("b.epub".data)
     { emptyExtract with epubItems := [("a.html".data, []), ("b.html".data, "x".data)] }
     (by decide) ⟨("b.html".data, "x".data), by decide, by decide⟩,
   claim_C8.2 ("c.epub".data) { emptyExtract with epubItems := [("a.html".data, " ".data)] }
     (by decide) (by decide)⟩

/-- Claim C9: a path whose lower-cased extension is not among the six
recognized ones fails with the unsupported-type error naming the
extension, and the result does not depend on any extracted content, so
no file read can influence it; the extension is the sole selector. -/
theorem claim_C9 (path : List Char) (x : Extracted)
    (h : pathExt path ∉
      [".pdf".data, ".txt".data, ".epub".data, ".mobi".data, ".doc".data, ".docx".data]) :
    parse path x = .error ⟨"暂不支持的文件类型: ".data ++ pathExt path⟩ ∧
    ∀ y : Extracted, parse path x = parse path y := by
  refine ⟨parse_unsupported path x h, ?_⟩
  intro y
  rw [parse_unsupported path x h, parse_unsupported path y h]

/-- Witness for claim C9 at a concrete unsupported path. -/
theorem claim_C9_witness :
    (pathExt ("report.xyz".data) ∉
      [".pdf".data, ".txt".data, ".epub".data, ".mobi".data, ".doc".data, ".docx".data]) ∧
    parse ("report.xyz".data) emptyExtract =
      .error ⟨"暂不支持的文件类型: ".data ++ pathExt ("report.xyz".data)⟩ :=
  ⟨by decide, (claim_C9 ("report.xyz".data) emptyExtract (by decide)).1⟩

/-- Claim C10 (amended): a plain-text input that is empty or
whitespace-only and whose normalized length is at most 1200 parses to
exactly one chapter titled with the plain text default and empty
content; a whitespace-only input longer than 1200 characters instead
returns several numbered chapters with empty content. -/
theorem claim_C10_amended (path : List Char) (x : Extracted)
    (hext : pathExt path = ".txt".data)
    (hws : ∀ c ∈ x.txtContent, pyIsSpace c = true)
    (hlen : (cleanText x.txtContent).length ≤ 1200) :
    parse path x = .ok [⟨txtDefaultTitle, []⟩] := by
  have hclean : ∀ c ∈ cleanText x.txtContent, pyIsSpace c = true :=
    cleanText_all_space _ hws
  have hnohead : ∀ line ∈ pySplitlines (cleanText x.txtContent),
      headingMatch (pyStrip line) = false := by
    intro line hline
    have hstrip : pyStrip line = [] := strip_of_all_space line
      (fun c hc => hclean c (mem_of_mem_splitlines _ line hline c hc))
    rw [hstrip]
    rfl
  rw [parse_txt_eq path x hext, split_no_heading _ _ hnohead, if_pos hlen,
     strip_of_all_space _ hclean]

/-- Witness for the amended claim C10 at a three-space input. -/
theorem claim_C10_amended_witness :
    pathExt ("a.txt".data) = ".txt".data ∧
    (∀ c ∈ ("   ".data : List Char), pyIsSpace c = true) ∧
    (cleanText ("   ".data)).length ≤ 1200 ∧
    parse ("a.txt".data) { emptyExtract with txtContent := "   ".data } =
      .ok [⟨txtDefaultTitle, []⟩] :=
  ⟨by decide, by decide, by decide,
   claim_C10_amended ("a.txt".data) { emptyExtract with txtContent := "   ".data }
     (by decide) (by decide) (by decide)⟩

set_option maxRecDepth 8000 in
/-- Claim C10 counterexample: a whitespace-only plain-text input of
1201 characters parses successfully but yields two chapters with
numbered titles, not the single plainly-titled chapter the claim
states. -/
theorem claim_C10_counterexample :
    (∀ c ∈ exC10, pyIsSpace c = true) ∧
    parse ("a.txt".data) xC10 =
      .ok [⟨"文本章节 1".data, []⟩, ⟨"文本章节 2".data, []⟩] ∧
    parse ("a.txt".data) xC10 ≠ .ok [⟨txtDefaultTitle, []⟩] := by
  have hok : parse ("a.txt".data) xC10 =
      .ok [⟨"文本章节 1".data, []⟩, ⟨"文本章节 2".data, []⟩] := by
    rw [parse_txt_eq _ _ (by decide)]
    exact congrArg Except.ok (beqChapters_eq _ _ (by decide))
  refine ⟨?_, hok, ?_⟩
  · intro c hc
    have hc2 : c ∈ List.replicate 1201 ' ' := hc
    rw [List.eq_of_mem_replicate hc2]
    rfl
  · rw [hok]
    intro heq
    injection heq with heq'
    have := congrArg List.length heq'
    simp at this
